import Mathlib

/-!
Verification of the DRE extraction hook (`src/components/hooks/useDREData.js`).

The JavaScript code is shallowly embedded over `List Char` (a JS string is a
sequence of UTF-16 code points; all text handled by the repository is in the
Basic Multilingual Plane, so one `Char` per code point is faithful).  Numbers
flowing out of `parseFloat` are modelled as rationals: every value the code
produces is the exact decimal denoted by the digits of the cell, and none of
the claims involves floating-point rounding.
-/

namespace DRE

/-- Shorthand: a JS string as a list of characters. -/
def str (s : String) : List Char := s.data

/-- Character class of the JS regex `\s` (also the set trimmed by
`String.prototype.trim`): ASCII whitespace, NBSP, the Unicode space
separators, the line separators and the BOM. -/
def isJsSpace (c : Char) : Bool :=
  c = ' ' || c = '\t' || c = '\n' || (c.toNat = 0x0b) || (c.toNat = 0x0c) || c = '\r' ||
  (c.toNat = 0xa0) || (c.toNat = 0x1680) ||
  (0x2000 ≤ c.toNat && c.toNat ≤ 0x200a) ||
  (c.toNat = 0x2028) || (c.toNat = 0x2029) || (c.toNat = 0x202f) ||
  (c.toNat = 0x205f) || (c.toNat = 0x3000) || (c.toNat = 0xfeff)

/-- Embedding of `String.prototype.trim`: drop leading and trailing
whitespace. -/
def trimChars (l : List Char) : List Char :=
  ((l.dropWhile isJsSpace).reverse.dropWhile isJsSpace).reverse

/-- Embedding of `.normalize("NFD")`, one character at a time, restricted to
the character repertoire the repository's data uses (Portuguese Latin-1
letters).  An accented letter decomposes into its base letter followed by a
combining mark in the block U+0300–U+036F; every other character is already
in NFD form and maps to itself. -/
def decomposeChar (c : Char) : List Char :=
  match c with
  | 'À' => ['A', '̀'] | 'Á' => ['A', '́'] | 'Â' => ['A', '̂']
  | 'Ã' => ['A', '̃'] | 'Ä' => ['A', '̈']
  | 'Ç' => ['C', '̧']
  | 'È' => ['E', '̀'] | 'É' => ['E', '́'] | 'Ê' => ['E', '̂']
  | 'Ë' => ['E', '̈']
  | 'Ì' => ['I', '̀'] | 'Í' => ['I', '́'] | 'Î' => ['I', '̂']
  | 'Ï' => ['I', '̈']
  | 'Ò' => ['O', '̀'] | 'Ó' => ['O', '́'] | 'Ô' => ['O', '̂']
  | 'Õ' => ['O', '̃'] | 'Ö' => ['O', '̈']
  | 'Ù' => ['U', '̀'] | 'Ú' => ['U', '́'] | 'Û' => ['U', '̂']
  | 'Ü' => ['U', '̈']
  | 'à' => ['a', '̀'] | 'á' => ['a', '́'] | 'â' => ['a', '̂']
  | 'ã' => ['a', '̃'] | 'ä' => ['a', '̈']
  | 'ç' => ['c', '̧']
  | 'è' => ['e', '̀'] | 'é' => ['e', '́'] | 'ê' => ['e', '̂']
  | 'ë' => ['e', '̈']
  | 'ì' => ['i', '̀'] | 'í' => ['i', '́'] | 'î' => ['i', '̂']
  | 'ï' => ['i', '̈']
  | 'ò' => ['o', '̀'] | 'ó' => ['o', '́'] | 'ô' => ['o', '̂']
  | 'õ' => ['o', '̃'] | 'ö' => ['o', '̈']
  | 'ù' => ['u', '̀'] | 'ú' => ['u', '́'] | 'û' => ['u', '̂']
  | 'ü' => ['u', '̈']
  | c => [c]

/-- Test for a combining diacritical mark, the class `[̀-ͯ]`. -/
def isCombiningMark (c : Char) : Bool :=
  0x300 ≤ c.toNat && c.toNat ≤ 0x36f

/-- Embedding of `String.prototype.toLowerCase` on one character, for the
ASCII range (the post-decomposition repertoire of the repository's text). -/
def toLowerChar (c : Char) : Char :=
  if 65 ≤ c.toNat ∧ c.toNat ≤ 90 then Char.ofNat (c.toNat + 32) else c

/-- Embedding of `toLowerCase` on a string. -/
def toLowerJs (l : List Char) : List Char := l.map toLowerChar

/-- Embedding of the source's `normalize`: NFD-decompose, strip the combining
marks, lowercase, trim. -/
def normalize (l : List Char) : List Char :=
  trimChars (toLowerJs ((l.flatMap decomposeChar).filter (fun c => !isCombiningMark c)))

/-- One entry of the `MONTH_ALIASES` table: the alternation bases of the
regex (e.g. `jan|janeiro`) and the canonical key.  Every regex in the table
has the shape `^(b₁|…|bₙ)(?:[\/\-\s]?\d{2,4})?$` with the `i` flag; the flag
is immaterial because the regex is only ever applied to `normalize`d
(lowercased) text. -/
structure MonthAlias where
  bases : List (List Char)
  key : List Char
  deriving DecidableEq

/-- Character class `[\/\-\s]`, the optional separator before a year
suffix. -/
def isSepChar (c : Char) : Bool := c = '/' || c = '-' || isJsSpace c

/-- Test of the optional suffix `(?:[\/\-\s]?\d{2,4})?$`: the remainder after
the base is empty, or an optional separator followed by two to four
digits. -/
def validSuffix (t : List Char) : Bool :=
  match t with
  | [] => true
  | c :: rest =>
    let digits := if isSepChar c then rest else c :: rest
    2 ≤ digits.length && digits.length ≤ 4 && digits.all Char.isDigit

/-- Anchored test `re.test s` for one `MONTH_ALIASES` regex: some alternation
base is a prefix of `s` and the remainder is a valid year suffix (the regex
is anchored on both sides, so backtracking over the alternation is exactly a
disjunction over the bases). -/
def matchesEntry (e : MonthAlias) (s : List Char) : Bool :=
  e.bases.any (fun b => b.isPrefixOf s && validSuffix (s.drop b.length))

/-- The `MONTH_ALIASES` table of the source, in its fixed order.  The base
`março` is kept even though it can never match normalized (accent-stripped)
text, exactly as in the source. -/
def MONTH_ALIASES : List MonthAlias :=
  [ ⟨[str "jan", str "janeiro"], str "jan"⟩,
    ⟨[str "fev", str "fevereiro"], str "fev"⟩,
    ⟨[str "mar", str "marco", str "março"], str "mar"⟩,
    ⟨[str "abr", str "abril"], str "abr"⟩,
    ⟨[str "mai", str "maio"], str "mai"⟩,
    ⟨[str "jun", str "junho"], str "jun"⟩,
    ⟨[str "jul", str "julho"], str "jul"⟩,
    ⟨[str "ago", str "agosto"], str "ago"⟩,
    ⟨[str "set", str "setembro"], str "set"⟩,
    ⟨[str "out", str "outubro"], str "out"⟩,
    ⟨[str "nov", str "novembro"], str "nov"⟩,
    ⟨[str "dez", str "dezembro"], str "dez"⟩,
    ⟨[str "total"], str "total"⟩ ]

/-- The `for … of MONTH_ALIASES` loop of `monthKey`: first matching entry
wins, in table order. -/
def firstMatch : List MonthAlias → List Char → Option (List Char)
  | [], _ => none
  | e :: rest, s => if matchesEntry e s then some e.key else firstMatch rest s

/-- Embedding of `monthKey`: normalize the cell, return the key of the first
matching alias, or no-match. -/
def monthKey (cell : List Char) : Option (List Char) :=
  firstMatch MONTH_ALIASES (normalize cell)

/-- Worker for `removeRS`. -/
def removeRSAux : Bool → List Char → List Char
  | _, [] => []
  | _, 'r' :: '$' :: rest => removeRSAux true rest
  | _, 'R' :: '$' :: rest => removeRSAux true rest
  | skipWs, c :: cs =>
    if skipWs && isJsSpace c then removeRSAux skipWs cs
    else c :: removeRSAux false cs

/-- Embedding of `.replace(/r\$\s*/gi, "")`: a leftmost-first scan deleting
every occurrence of `r$` (any case) together with the whitespace run that
follows it; the Boolean state of the worker says whether the scan is inside
such a whitespace run. -/
def removeRS (l : List Char) : List Char := removeRSAux false l

/-- Test of `/^[-–—]$/`: the string is a lone dash, en-dash or em-dash. -/
def isDashOnly (s : List Char) : Bool :=
  s = ['-'] || s = ['–'] || s = ['—']

/-- Embedding of the parenthesized-negative step: `/^\(.*\)$/` matches (the
string at this point contains no line terminator, they were removed with the
whitespace, so `.` is unrestricted) and the parentheses are stripped. -/
def stripParens (s : List Char) : Bool × List Char :=
  match s with
  | '(' :: rest => if rest ≠ [] ∧ rest.getLast? = some ')' then (true, rest.dropLast) else (false, s)
  | _ => (false, s)

/-- Embedding of the trailing-minus step: the anchored regex "dash at end of
string" detected and the one trailing minus removed. -/
def stripTrailingMinus (s : List Char) : Bool × List Char :=
  if s.getLast? = some '-' then (true, s.dropLast) else (false, s)

/-- Character class kept by `.replace(/[^\d.,\-]/g, "")`. -/
def isNumChar (c : Char) : Bool :=
  c.isDigit || c = '.' || c = ',' || c = '-'

/-- Embedding of `.replace(",", ".")` (no `g` flag: only the first comma is
replaced). -/
def replaceFirstComma : List Char → List Char
  | [] => []
  | c :: cs => if c = ',' then '.' :: cs else c :: replaceFirstComma cs

/-- Embedding of the separator logic: with both comma and period present the
periods are thousands separators (all removed) and the first comma becomes
the decimal point; with only a comma present the first comma becomes the
decimal point. -/
def commaFix (s : List Char) : List Char :=
  if s.contains ',' ∧ s.contains '.' then replaceFirstComma (s.filter (fun c => c ≠ '.'))
  else if s.contains ',' then replaceFirstComma s
  else s

/-- Numeric value of a digit string, most significant first. -/
def digitsVal (l : List Char) : Nat :=
  l.foldl (fun acc c => 10 * acc + (c.toNat - 48)) 0

/-- Embedding of `parseFloat`: skip leading whitespace, read an optional
sign, then the longest prefix of the form `digits [. digits]`; `none` is
`NaN` (no digit readable at all).  Exponent notation cannot reach this
function in the pipeline (every letter was stripped by the `[^\d.,\-]`
filter), so it is omitted. -/
def parseFloatQ (s0 : List Char) : Option ℚ :=
  let s1 := s0.dropWhile isJsSpace
  let neg := s1.head? = some '-'
  let s2 := if s1.head? = some '-' ∨ s1.head? = some '+' then s1.tail else s1
  let intd := s2.takeWhile Char.isDigit
  let rest := s2.drop intd.length
  let fracd := if rest.head? = some '.' then rest.tail.takeWhile Char.isDigit else []
  if intd = [] ∧ fracd = [] then none
  else
    let den := Nat.pow 10 fracd.length
    let mag : Int := (digitsVal intd * den + digitsVal fracd : Nat)
    some (mkRat (if neg then -mag else mag) den)

/-- The cleaning pipeline of `parsePtNumber` after the early returns: remove
`r$` prefixes, remove whitespace, detect and strip the negativity markers,
keep only numeric characters, fix the separators.  Returns the negativity
flag and the string handed to `parseFloat`. -/
def cleanNumber (s : List Char) : Bool × List Char :=
  let s1 := removeRS s
  let s2 := s1.filter (fun c => !isJsSpace c)
  let p := stripParens s2
  let q := stripTrailingMinus p.2
  (p.1 || q.1, commaFix (q.2.filter isNumChar))

/-- Embedding of `parsePtNumber`.  The argument is `none` for a JS
`null`/`undefined` cell (`raw == null`), `some` for a string cell.  Total:
a `NaN` from `parseFloat` is turned into `0`, never returned. -/
def parsePtNumber (raw : Option (List Char)) : ℚ :=
  match raw with
  | none => 0
  | some raw =>
    let s := trimChars raw
    if s = [] ∨ isDashOnly s then 0
    else
      let nc := cleanNumber s
      match parseFloatQ nc.2 with
      | none => 0
      | some v => if nc.1 then -v else v

/-- Spec-side notion used by the claims: a cell "parses as a number" when the
same pipeline reaches `parseFloat` and `parseFloat` does not yield `NaN`;
absent, empty and lone-dash cells do not parse as numbers.  (The code itself
degrades all of these to `0`.) -/
def parsesAsNumber (raw : List Char) : Option ℚ :=
  let s := trimChars raw
  if s = [] ∨ isDashOnly s then none
  else
    let nc := cleanNumber s
    (parseFloatQ nc.2).map (fun v => if nc.1 then -v else v)

/-- Worker for `squashWs`: the flag records whether the previous character
was inside a whitespace run (whose underscore was already emitted). -/
def squashWsAux : Bool → List Char → List Char
  | _, [] => []
  | inRun, c :: cs =>
    if isJsSpace c then (if inRun then [] else ['_']) ++ squashWsAux true cs
    else c :: squashWsAux false cs

/-- Embedding of `.replace(/\s+/g, "_")`: every maximal whitespace run
becomes one underscore. -/
def squashWs (l : List Char) : List Char := squashWsAux false l

/-- Character class removed by `.replace(/[()=+\-]/g, "")`. -/
def isPunct (c : Char) : Bool :=
  c = '(' || c = ')' || c = '=' || c = '+' || c = '-'

/-- Embedding of the account-key derivation
`normalize(titleRaw).replace(/\s+/g,"_").replace(/[()=+\-]/g,"").slice(0,100)`. -/
def keyNorm (titleRaw : List Char) : List Char :=
  (((squashWs (normalize titleRaw)).filter (fun c => !isPunct c)).take 100)

/-- Alias-variant normalization inside `findRow`:
`normalize(opt).replace(/\s+/g,"_").replace(/[()=+\-]/g,"")` — the same as
`keyNorm` but with no `slice(0,100)`. -/
def normAlias (opt : List Char) : List Char :=
  (squashWs (normalize opt)).filter (fun c => !isPunct c)

/-- A parsed grid: rows of string cells (`Papa.parse` with `header: false`
and the `transform` turning `null` into `""` always yields string cells). -/
def Grid := List (List (List Char))

/-- Embedding of `row[c] ?? ""` (also of `String(row[c] ?? "")`, a no-op on
string cells): cell of a row at a column, the empty string when absent. -/
def cellAt (row : List (List Char)) (i : Nat) : List Char := row.getD i []

/-- Embedding of `data[i] || []`: row of the grid, `[]` when out of range. -/
def rowAt (data : Grid) (i : Nat) : List (List Char) := data.getD i []

/-- Embedding of `row.map(monthKey).filter(Boolean).length`: how many cells
of the row the Month Classifier recognizes. -/
def countHits (row : List (List Char)) : Nat :=
  (((row.map monthKey).filter Option.isSome).length)

/-- Embedding of the header auto-detection `for` loop.  `fuel` is `5 - i`, so
that the scan visits `i = 0, …, 4` exactly as `i < Math.min(5, data.length)`
does; `none` is "no row reached 3 month hits" (the loop fell through without
`break`). -/
def findHeaderLoop (data : Grid) : Nat → Nat → Option (Nat × Nat)
  | _, 0 => none
  | i, fuel + 1 =>
    if i < data.length then
      let row := rowAt data i
      if 3 ≤ countHits row then some (i, if 2 ≤ row.length then 1 else 0)
      else findHeaderLoop data (i + 1) fuel
    else none

/-- Embedding of the Header/Column Locator: the loop starting at `i = 0`,
with the fallback `headerIdx = 1`, `titleCol = 1` when no row in the window
reaches 3 hits.  (`row[1] !== undefined` for a dense parsed row is exactly
`2 ≤ row.length`.) -/
def findHeader (data : Grid) : Nat × Nat :=
  (findHeaderLoop data 0 5).getD (1, 1)

/-- One element pushed onto `monthCols`: canonical month key, column index
and the raw header cell. -/
structure MonthCol where
  mes : List Char
  col : Nat
  raw : List Char
  deriving DecidableEq

/-- Embedding of `Math.abs`. -/
def ratAbs (q : ℚ) : ℚ := if q < 0 then -q else q

/-- The auxiliary-column heuristic of the month-column loop, at month column
`idx`: `nextHeader` is the next header cell (`header[idx+1] ?? ""`, not
trimmed) and must be empty, and `Math.abs(parsePtNumber(nextCell)) <= 5`
must hold for the trimmed cell below that next column.  The code also tests
`!isNaN(nextNum)`, which always holds because `parsePtNumber` never returns
`NaN`. -/
def nextIsAux (nextHeader : List Char) (below : List (List Char)) (idx : Nat) : Bool :=
  nextHeader == [] &&
    decide (ratAbs (parsePtNumber (some (trimChars (cellAt below (idx + 1))))) ≤ 5)

/-- Embedding of the month-column `for` loop, walking the suffix of the
header row that starts at column `idx` (so the first argument list is
`header.drop idx`); `below` is the full row under the header
(`data[headerIdx + 1] ?? []`).  A month column is pushed and, when the next
column looks auxiliary, the walk steps over it (`idx += 1` inside the loop
plus the loop increment). -/
def walk (below : List (List Char)) : List (List Char) → Nat → List MonthCol
  | [], _ => []
  | cell :: rest, idx =>
    match monthKey cell with
    | none => walk below rest (idx + 1)
    | some k =>
      if k = str "total" then walk below rest (idx + 1)
      else
        ⟨k, idx, cell⟩ ::
          (if nextIsAux ((rest.head?).getD []) below idx then
            match rest with
            | [] => []
            | _ :: rest2 => walk below rest2 (idx + 2)
          else walk below rest (idx + 1))

/-- Embedding of the starting column
`header.findIndex((c) => monthKey(c))` with the fallback to column 2. -/
def startCol (header : List (List Char)) : Nat :=
  match header.findIdx? (fun c => (monthKey c).isSome) with
  | some i => i
  | none => 2

/-- The `monthCols` list computed for a grid: locate the header, then walk
its columns from the first month column. -/
def monthColsOf (data : Grid) : List MonthCol :=
  let headerIdx := (findHeader data).1
  let header := rowAt data headerIdx
  let below := rowAt data (headerIdx + 1)
  walk below (header.drop (startCol header)) (startCol header)

/-- One extracted account line. -/
structure AccountRow where
  name : List Char
  key : List Char
  values : List (List Char × ℚ)
  deriving DecidableEq

/-- Assignment to a JS object property / `Map.set`: overwrite in place when
the key exists (keeping its position), append otherwise. -/
def mapSet (m : List (List Char × AccountRow)) (k : List Char) (v : AccountRow) :
    List (List Char × AccountRow) :=
  if m.any (fun p => p.1 == k) then m.map (fun p => if p.1 == k then (k, v) else p)
  else m ++ [(k, v)]

/-- Assignment `values[mes] = val` on the values object. -/
def valSet (m : List (List Char × ℚ)) (k : List Char) (v : ℚ) : List (List Char × ℚ) :=
  if m.any (fun p => p.1 == k) then m.map (fun p => if p.1 == k then (k, v) else p)
  else m ++ [(k, v)]

/-- Property read `obj[k]` on an object modelled as an assignment list built
with overwrite semantics: the unique entry for `k`, if any. -/
def valGet (m : List (List Char × ℚ)) (k : List Char) : Option ℚ :=
  (m.find? (fun p => p.1 == k)).map (fun p => p.2)

/-- Embedding of the `values` object built by
`monthCols.forEach(({mes,col}) => { values[mes] = … })`; the
`isNaN(val) ? 0 : val` guard is the identity because `parsePtNumber` never
returns `NaN`. -/
def valuesOf (mcs : List MonthCol) (row : List (List Char)) : List (List Char × ℚ) :=
  mcs.foldl (fun acc mc => valSet acc mc.mes (parsePtNumber (some (cellAt row mc.col)))) []

/-- Embedding of one iteration of the account-row loop: `none` when the row
is skipped (empty trimmed title, or no non-blank month cell), otherwise the
`AccountRow` that is pushed. -/
def buildRow (titleCol : Nat) (mcs : List MonthCol) (row : List (List Char)) :
    Option AccountRow :=
  let titleRaw := trimChars (cellAt row titleCol)
  if titleRaw = [] then none
  else if mcs.any (fun mc => !(trimChars (cellAt row mc.col) == [])) then
    some ⟨titleRaw, keyNorm titleRaw, valuesOf mcs row⟩
  else none

/-- Embedding of the account-row `for` loop over the data rows strictly
below the header (the list argument is `data.drop (headerIdx + 1)`). -/
def extractRows (titleCol : Nat) (mcs : List MonthCol) : List (List (List Char)) → List AccountRow
  | [] => []
  | row :: rest =>
    match buildRow titleCol mcs row with
    | none => extractRows titleCol mcs rest
    | some a => a :: extractRows titleCol mcs rest

/-- The state published by the hook. -/
structure Snapshot where
  rows : List AccountRow
  months : List (List Char)
  loading : Bool
  deriving DecidableEq

/-- The pure extraction pipeline on a parsed grid: header location, month
columns, account rows, discovered months; `loading` cleared. -/
def extract (data : Grid) : Snapshot :=
  let hd := findHeader data
  let mcs := monthColsOf data
  ⟨extractRows hd.2 mcs (data.drop (hd.1 + 1)), mcs.map (fun mc => mc.mes), false⟩

/-- Embedding of the fetch-and-parse effect: a failed fetch (or any
exception inside the `try`) takes the `catch` branch and publishes the empty
snapshot; a successful fetch publishes the extraction result wholesale.  The
argument is the outcome of `fetch … → Papa.parse`. -/
def loadDRE (outcome : Except String Grid) : Snapshot :=
  match outcome with
  | Except.error _ => ⟨[], [], false⟩
  | Except.ok data => extract data

/-- Embedding of the `map` memo: `rows.forEach((r) => m.set(r.key, r))`,
insertion order preserved, later rows with the same key overwriting in
place (JS `Map.set` semantics). -/
def mapOf (rows : List AccountRow) : List (List Char × AccountRow) :=
  rows.foldl (fun m r => mapSet m r.key r) []

/-- Embedding of `map.has(k)` / `map.get(k)` combined. -/
def mapGet (m : List (List Char × AccountRow)) (k : List Char) : Option AccountRow :=
  (m.find? (fun p => p.1 == k)).map (fun p => p.2)

/-- Embedding of `String.prototype.includes`: `small` occurs contiguously in
`big`. -/
def isSubstr (small big : List Char) : Bool :=
  big.tails.any (fun t => small.isPrefixOf t)

/-- The static `aliases` table, transcribed verbatim from the source
(including the duplicated variants). -/
def ALIASES : List (List Char × List (List Char)) :=
  [ (str "faturamento_bruto", [str "faturamento bruto"]),
    (str "receitas_servicos", [str "receita da prestacao de servicos", str "receita prestacao de servicos", str "receita de servicos"]),
    (str "receitas_revenda", [str "receita da revenda de mercadorias"]),
    (str "receitas_fabricacao", [str "receita de fabricacao propria", str "receita de fabricacao propria"]),
    (str "deducoes", [str "deducoes", str "deducoes estornos", str "devolucoes/estornos", str "deducoes (-)"]),
    (str "receita_liquida", [str "receita liquida", str "receita liquida =", str "receita liquida (=)"]),
    (str "custos_totais", [str "custos totais", str "custos totais =", str "custos totais (=)"]),
    (str "custos_operacionais", [str "custos operacionais", str "custos operacionais (-)"]),
    (str "despesas_adm", [str "despesas adm", str "despesas administrativas"]),
    (str "despesas_comercial", [str "despesas comercial", str "despesas comerciais"]),
    (str "despesas_logistica", [str "despesas com logistica", str "despesas com logistica", str "logistica"]),
    (str "ebitda", [str "ebitda"]),
    (str "lucro_operacional", [str "lucro operacional (ebit)", str "lucro operacional ebit", str "ebit"]),
    (str "resultado_financeiro", [str "resultado financeiro"]),
    (str "impostos_sobre_lucro", [str "impostos sobre o lucro"]),
    (str "lucro_liquido", [str "lucro liquido", str "lucro liquido =", str "lucro liquido (=)", str "lucro liquido (+/-)"]),
    (str "lucro_bruto", [str "lucro bruto", str "lucro bruto (=)"]),
    (str "geracao_caixa", [str "geracao de caixa", str "geracao de caixa"]),
    (str "inadimplencia_mes", [str "inadimplencia do mes", str "inadimplencia mes", str "inadimplencia do mês"]),
    (str "inadimplencia_acumulada", [str "inadimplencia acumulada"]),
    (str "prazo_medio_receber", [str "pmr", str "prazo medio receber", str "prazo medio de recebimento"]),
    (str "prazo_medio_pagar", [str "pmp", str "prazo medio pagar", str "prazo medio de pagamento"]) ]

/-- Embedding of `aliases[aliasKey] || []`. -/
def aliasOpts (aliasKey : List Char) : List (List Char) :=
  ((ALIASES.find? (fun p => p.1 == aliasKey)).map (fun p => p.2)).getD []

/-- The body of `findRow`, tagged with the branch that produced the hit:
`true` for the exact-match branch (`map.has(k)`), `false` for the
substring-containment fallback over the map entries. -/
def findRowLoop (m : List (List Char × AccountRow)) : List (List Char) → Option (AccountRow × Bool)
  | [] => none
  | opt :: rest =>
    let k := normAlias opt
    match mapGet m k with
    | some r => some (r, true)
    | none =>
      match m.find? (fun p => isSubstr k p.1) with
      | some p => some (p.2, false)
      | none => findRowLoop m rest

/-- Embedding of `findRow`: try each alias variant in table order, exact
match against the index first, then first indexed key containing the variant
as a substring (in the map's insertion order). -/
def findRow (rows : List AccountRow) (aliasKey : List Char) : Option AccountRow :=
  (findRowLoop (mapOf rows) (aliasOpts aliasKey)).map (fun p => p.1)

/-- Embedding of `valueAt`: resolve the row, `0` when there is none;
lowercase the month argument (`(mes || "").toString().toLowerCase()`, so a
JS `null`/`undefined`/empty month reads the empty-string property) and read
the values object, `0` when the property is absent.  (`Number` applied to a
number is the identity.) -/
def valueAt (rows : List AccountRow) (aliasKey : List Char) (mes : Option (List Char)) : ℚ :=
  match findRow rows aliasKey with
  | none => 0
  | some row => (valGet row.values (toLowerJs (mes.getD []))).getD 0

/-! Concrete data shared by several developments below. -/

/-- The account title of the round-trip scenario. -/
def receitaTitle : List Char := str "Receita Líquida (=)"

/-- The `AccountRow` the extractor produces from `receitaTitle` with a
single January column holding `1.000,00`. -/
def receitaRow : AccountRow := ⟨receitaTitle, keyNorm receitaTitle, [(str "jan", 1000)]⟩

/-- A one-row published state around `receitaRow`. -/
def receitaRows : List AccountRow := [receitaRow]

/-- A one-row published state whose key is hit by the `ebitda` alias and
whose values hold a March entry. -/
def ebitdaRows : List AccountRow := [⟨str "EBITDA", str "ebitda", [(str "mar", 100)]⟩]

/-- Outcome of a JS property read on a plain object: an own data property,
a value inherited from `Object.prototype` (always a function or an object,
never `null`/`undefined`), or `undefined`. -/
inductive JsProp (α : Type) where
  | own (a : α)
  | inherited
  | undef
  deriving DecidableEq

/-- The own property names of `Object.prototype`, inherited by every plain
object literal such as `aliases` and each `values` object: reading one of
these keys yields a function (or, for `__proto__`, the prototype object)
instead of `undefined`. -/
def protoKeys : List (List Char) :=
  [str "constructor", str "hasOwnProperty", str "isPrototypeOf",
   str "propertyIsEnumerable", str "toLocaleString", str "toString", str "valueOf",
   str "__defineGetter__", str "__defineSetter__", str "__lookupGetter__",
   str "__lookupSetter__", str "__proto__"]

/-- Full embedding of the property read `aliases[aliasKey]`, prototype chain
included: an own entry of the alias table, else — for an `Object.prototype`
name — the inherited function/object, else `undefined`. -/
def aliasGetJs (k : List Char) : JsProp (List (List Char)) :=
  match ALIASES.find? (fun p => p.1 == k) with
  | some p => JsProp.own p.2
  | none => if protoKeys.contains k then JsProp.inherited else JsProp.undef

/-- Full embedding of the property read `row.values?.[m]`, prototype chain
included. -/
def valGetJs (m : List (List Char × ℚ)) (k : List Char) : JsProp ℚ :=
  match m.find? (fun p => p.1 == k) with
  | some p => JsProp.own p.2
  | none => if protoKeys.contains k then JsProp.inherited else JsProp.undef

/-- A JS number: either a rational value or `NaN` (`Number` applied to an
inherited function or object yields `NaN`). -/
inductive JsNum where
  | num (q : ℚ)
  | nan
  deriving DecidableEq

deriving instance DecidableEq for Except

/-- The body of `valueAt` after the `aliases[aliasKey] || []` read, for an
iterable `opts`: resolve the row (0 when none), read the values object under
the lowercased month — an own entry is the number itself, an inherited
`Object.prototype` member survives `?? 0` and `Number(...)` turns it into
`NaN`, and `undefined` falls back to 0. -/
def valueAtJsRow (rows : List AccountRow) (opts : List (List Char))
    (mes : Option (List Char)) : Except (List Char) JsNum :=
  match findRowLoop (mapOf rows) opts with
  | none => Except.ok (JsNum.num 0)
  | some p =>
    match valGetJs p.1.values (toLowerJs (mes.getD [])) with
    | JsProp.own v => Except.ok (JsNum.num v)
    | JsProp.inherited => Except.ok JsNum.nan
    | JsProp.undef => Except.ok (JsNum.num 0)

/-- Embedding of `valueAt` with the JS prototype chain: when `aliasKey` is
an `Object.prototype` name, `aliases[aliasKey]` is the inherited
function/object — truthy, so `|| []` does not fire — and
`for (const opt of opts)` throws a `TypeError` (the value is not iterable);
an own alias entry or `undefined` (→ `[]`) proceeds to the row and month
lookup of `valueAtJsRow`. -/
def valueAtJs (rows : List AccountRow) (aliasKey : List Char)
    (mes : Option (List Char)) : Except (List Char) JsNum :=
  match aliasGetJs aliasKey with
  | JsProp.inherited => Except.error (str "TypeError: opts is not iterable")
  | JsProp.own opts => valueAtJsRow rows opts mes
  | JsProp.undef => valueAtJsRow rows [] mes

/-- C1: `parsePtNumber` maps the comma-decimal/period-thousands string
`"1.234,56"` to 1234.56 (the rational `mkRat 123456 100`), the parenthesized
`"(1.234,56)"` to −1234.56, absent input, the empty string and a lone
dash/en-dash/em-dash to 0, and any input whose cleaned remainder fails to
parse as a number (its `parseFloat` is `NaN`) to 0; being a total function
into `ℚ`, it never throws and never returns `NaN`. -/
theorem c1_parse_pt_number :
    parsePtNumber (some (str "1.234,56")) = mkRat 123456 100 ∧
    parsePtNumber (some (str "(1.234,56)")) = -(mkRat 123456 100) ∧
    parsePtNumber none = 0 ∧
    parsePtNumber (some (str "")) = 0 ∧
    parsePtNumber (some (str "-")) = 0 ∧
    parsePtNumber (some (str "–")) = 0 ∧
    parsePtNumber (some (str "—")) = 0 ∧
    (∀ raw : List Char, parseFloatQ (cleanNumber (trimChars raw)).2 = none →
      parsePtNumber (some raw) = 0) := by
  refine ⟨by decide, by decide, rfl, by decide, by decide, by decide, by decide, ?_⟩
  intro raw h
  simp only [parsePtNumber]
  split
  · rfl
  · rw [h]

/-- Witness for C1 at the concrete unparseable cell `"abc"`. -/
theorem c1_parse_pt_number_witness :
    parsePtNumber (some (str "abc")) = 0 :=
  c1_parse_pt_number.2.2.2.2.2.2.2 (str "abc") (by decide)

/-- C7: a failed fetch (or any exception caught by the pipeline's `catch`)
publishes exactly the empty snapshot — no rows, no months, loading cleared —
and every published snapshot has `loading = false` (the success snapshot is
likewise published in one piece by `extract`). -/
theorem c7_error_empty_snapshot :
    (∀ err : String, loadDRE (Except.error err) = ⟨[], [], false⟩) ∧
    (∀ outcome : Except String Grid, (loadDRE outcome).loading = false) := by
  constructor
  · intro err
    rfl
  · intro outcome
    cases outcome with
    | error e => rfl
    | ok data => rfl

/-- C3 counterexample: for the row extracted from `"Receita Líquida (=)"`,
the Alias Resolver applied to `"receita_liquida"` does return the row, but
through the substring-containment fallback (the `false` tag), not through
the exact-match branch as claimed: the normalized key is
`"receita_liquida_"` (the space before `"(=)"` became an underscore that
the punctuation strip does not remove), which differs from the normalized
first variant `"receita_liquida"` yet contains it. -/
theorem c3_counterexample :
    findRowLoop (mapOf receitaRows) (aliasOpts (str "receita_liquida")) =
      some (receitaRow, false) ∧
    keyNorm receitaTitle ≠ normAlias (str "receita liquida") := by
  constructor
  · decide
  · decide

/-- C3 (amended): the extractor really produces `receitaRow` from the title
`"Receita Líquida (=)"`; its normalized key is `"receita_liquida_"` — free
of accents (all ASCII) and of parenthesis and equals characters, but with a
trailing underscore — and the Alias Resolver on `"receita_liquida"` returns
that row via the substring-containment fallback branch of the first
variant, not via the exact-match branch (even though the key does equal the
normalized third variant `"receita liquida (=)"`, which is never
reached). -/
theorem c3_roundtrip_amended :
    buildRow 0 [⟨str "jan", 1, str "jan"⟩] [receitaTitle, str "1.000,00"] = some receitaRow ∧
    keyNorm receitaTitle = str "receita_liquida_" ∧
    ((keyNorm receitaTitle).all fun c =>
      decide (c.toNat < 128) && !(c == '(') && !(c == ')') && !(c == '=')) = true ∧
    keyNorm receitaTitle = normAlias (str "receita liquida (=)") ∧
    findRow receitaRows (str "receita_liquida") = some receitaRow ∧
    (findRowLoop (mapOf receitaRows) (aliasOpts (str "receita_liquida"))).map
      (fun p => p.2) = some false := by
  refine ⟨by decide, by decide, by decide, by decide, by decide, by decide⟩

/-- Unfolding of one push-step of the walk at a month column: the month is
recorded and the walk resumes two columns further exactly when the
auxiliary-column heuristic fires, one column further otherwise. -/
theorem walk_step (below : List (List Char)) (cell : List Char) (rest : List (List Char))
    (idx : Nat) (k : List Char) (hk : monthKey cell = some k) (htot : k ≠ str "total") :
    walk below (cell :: rest) idx =
      ⟨k, idx, cell⟩ ::
        (if nextIsAux ((rest.head?).getD []) below idx then walk below rest.tail (idx + 2)
         else walk below rest (idx + 1)) := by
  cases rest with
  | nil => simp [walk, hk, htot]
  | cons r2 rest2 => simp [walk, hk, htot]

/-- C2 counterexample: at a month column whose following header cell is
empty but whose cell one row below is `"abc"` — text that fails to parse as
a number — the code's skip condition holds anyway (the parser degrades
`"abc"` to `0` and `|0| ≤ 5`), the walk records the month and steps over the
column; so "skipped exactly when the cell below is a parseable number with
absolute value ≤ 5" is false at this input. -/
theorem c2_counterexample :
    nextIsAux [] [[], str "abc"] 0 = true ∧
    parsesAsNumber (trimChars (cellAt [[], str "abc"] 1)) = none ∧
    walk [[], str "abc"] [str "jan", []] 0 = [⟨str "jan", 0, str "jan"⟩] ∧
    ¬ (nextIsAux [] [[], str "abc"] 0 = true ↔
        (([] : List Char) = [] ∧
          (parsesAsNumber (trimChars (cellAt [[], str "abc"] 1))).elim False
            (fun q => ratAbs q ≤ 5))) := by
  refine ⟨by decide, by decide, by decide, ?_⟩
  intro hiff
  have h1 := hiff.mp (by decide)
  have h2 : parsesAsNumber (trimChars (cellAt [[], str "abc"] 1)) = none := by decide
  rw [h2] at h1
  exact h1.2

/-- C2 (amended): in the walk, a month column (other than `"total"`) is
always recorded, and the immediately following column is stepped over
exactly when its header cell is empty and `parsePtNumber` of the trimmed
cell one row below it — which degrades unparseable text to `0` — has
absolute value ≤ 5; otherwise the walk continues at the very next
column. -/
theorem c2_aux_skip_amended :
    (∀ nextHeader below idx,
      nextIsAux nextHeader below idx = true ↔
        (nextHeader = [] ∧
          ratAbs (parsePtNumber (some (trimChars (cellAt below (idx + 1))))) ≤ 5))
    ∧ (∀ below cell rest idx k, monthKey cell = some k → k ≠ str "total" →
        walk below (cell :: rest) idx =
          ⟨k, idx, cell⟩ ::
            (if nextIsAux ((rest.head?).getD []) below idx then walk below rest.tail (idx + 2)
             else walk below rest (idx + 1))) := by
  constructor
  · intro nextHeader below idx
    simp [nextIsAux]
  · exact fun below cell rest idx k hk htot => walk_step below cell rest idx k hk htot

/-- Witness for C2's amended theorem at a concrete month column: `"jan"`
followed by an empty header whose below-cell is the ratio `"0,35"`, so the
walk records `jan` and steps from column 0 to column 2. -/
theorem c2_aux_skip_amended_witness :
    nextIsAux [] [[], str "0,35"] 0 = true ∧
    walk [[], str "0,35"] [str "jan", []] 0 =
      [⟨str "jan", 0, str "jan"⟩] :=
  ⟨(c2_aux_skip_amended.1 [] [[], str "0,35"] 0).mpr ⟨rfl, by decide⟩,
   by
    rw [c2_aux_skip_amended.2 [[], str "0,35"] (str "jan") [[]] 0 (str "jan")
      (by decide) (by decide)]
    decide⟩

/-- C6: the account-row loop is exactly a `filterMap` over the rows strictly
below the header (so emitted rows appear in source order), and one row
yields an `AccountRow` if and only if its trimmed title is non-empty and
some month-column cell of the row is non-empty after trimming. -/
theorem c6_account_row_extractor :
    (∀ titleCol mcs rows, extractRows titleCol mcs rows = rows.filterMap (buildRow titleCol mcs))
    ∧ (∀ titleCol mcs row, (buildRow titleCol mcs row).isSome = true ↔
        (trimChars (cellAt row titleCol) ≠ [] ∧
          ∃ mc ∈ mcs, trimChars (cellAt row mc.col) ≠ [])) := by
  constructor
  · intro titleCol mcs rows
    induction rows with
    | nil => rfl
    | cons row rest ih =>
      simp only [extractRows, List.filterMap_cons]
      cases h : buildRow titleCol mcs row <;> simp [h, ih]
  · intro titleCol mcs row
    simp only [buildRow]
    split
    · rename_i h1
      simp [h1]
    · rename_i h1
      split
      · rename_i h2
        simp only [Option.isSome_some, true_iff]
        refine ⟨h1, ?_⟩
        rcases List.any_eq_true.mp h2 with ⟨mc, hmem, hmc⟩
        exact ⟨mc, hmem, by simpa using hmc⟩
      · rename_i h2
        simp only [Option.isSome_none, Bool.false_eq_true, false_iff, not_and]
        intro _
        rintro ⟨mc, hmem, hmc⟩
        exact h2 (List.any_eq_true.mpr ⟨mc, hmem, by simpa using hmc⟩)

/-- Witness for C6 at a concrete two-cell row with title `"Receita"` and a
January value, plus a concrete skipped row whose month cell is blank. -/
theorem c6_account_row_extractor_witness :
    extractRows 0 [⟨str "jan", 1, str "jan"⟩]
        [[str "Receita", str "10"], [str "Secao", str " "]] =
      ([[str "Receita", str "10"], [str "Secao", str " "]].filterMap
        (buildRow 0 [⟨str "jan", 1, str "jan"⟩])) ∧
    (buildRow 0 [⟨str "jan", 1, str "jan"⟩] [str "Receita", str "10"]).isSome = true :=
  ⟨c6_account_row_extractor.1 0 [⟨str "jan", 1, str "jan"⟩]
      [[str "Receita", str "10"], [str "Secao", str " "]],
   (c6_account_row_extractor.2 0 [⟨str "jan", 1, str "jan"⟩] [str "Receita", str "10"]).mpr
      ⟨by decide, ⟨⟨str "jan", 1, str "jan"⟩, by decide, by decide⟩⟩⟩

/-- C9 counterexample: the fallback-to-0 claim fails at `Object.prototype`
names.  The semantic key `"constructor"` is absent from the alias table yet
`aliases["constructor"]` is the inherited `Object` constructor, so the
variant loop throws a `TypeError` instead of returning 0; and on a resolved
row, the months `"constructor"` and `"__proto__"` read inherited objects
from the values object, so `Number(...)` yields `NaN`, not 0. -/
theorem c9_counterexample :
    valueAtJs [] (str "constructor") (some (str "jan")) =
      Except.error (str "TypeError: opts is not iterable") ∧
    valueAtJs [] (str "constructor") (some (str "jan")) ≠ Except.ok (JsNum.num 0) ∧
    valueAtJs ebitdaRows (str "ebitda") (some (str "constructor")) = Except.ok JsNum.nan ∧
    valueAtJs ebitdaRows (str "ebitda") (some (str "__proto__")) = Except.ok JsNum.nan ∧
    JsNum.nan ≠ JsNum.num 0 := by decide

/-- Lemma: away from `Object.prototype` alias keys, `valueAt` runs the loop
body on `aliases[aliasKey] || []`. -/
theorem valueAtJs_run (rows : List AccountRow) (k : List Char) (m : Option (List Char))
    (hk : k ∉ protoKeys) :
    valueAtJs rows k m = valueAtJsRow rows (aliasOpts k) m := by
  unfold valueAtJs aliasGetJs aliasOpts
  cases ALIASES.find? (fun p => p.1 == k) <;> simp [hk]

/-- C9 (amended): for every semantic key that is not an inherited
`Object.prototype` property name, `valueAt` returns 0 when the key resolves
to no AccountRow (in particular when it is absent from the alias table) and
— provided the lowercased month is likewise not an inherited name — when
the resolved row's values mapping has no entry for it; an existing entry is
returned as is; and on all such inputs the full prototype-aware semantics
agrees with the prototype-free model.  (At inherited names the program
instead throws, respectively yields `NaN` — see the counterexample.) -/
theorem c9_value_at_fallback_amended :
    (∀ rows k m, k ∉ protoKeys →
      toLowerJs (m.getD []) ∉ protoKeys →
      valueAtJs rows k m = Except.ok (JsNum.num (valueAt rows k m)))
    ∧ (∀ rows k m, k ∉ protoKeys → findRow rows k = none →
      valueAtJs rows k m = Except.ok (JsNum.num 0))
    ∧ (∀ rows k m r, k ∉ protoKeys → findRow rows k = some r →
      toLowerJs (m.getD []) ∉ protoKeys →
      valGet r.values (toLowerJs (m.getD [])) = none →
      valueAtJs rows k m = Except.ok (JsNum.num 0))
    ∧ (∀ rows k m r v, k ∉ protoKeys → findRow rows k = some r →
      valGet r.values (toLowerJs (m.getD [])) = some v →
      valueAtJs rows k m = Except.ok (JsNum.num v))
    ∧ (∀ rows k m, ALIASES.find? (fun p => p.1 == k) = none →
      k ∉ protoKeys →
      valueAtJs rows k m = Except.ok (JsNum.num 0)) := by
  have hnone : ∀ rows (k : List Char) m, k ∉ protoKeys →
      findRow rows k = none → valueAtJs rows k m = Except.ok (JsNum.num 0) := by
    intro rows k m hk hfind
    rw [valueAtJs_run rows k m hk]
    have hloop : findRowLoop (mapOf rows) (aliasOpts k) = none := by
      have := hfind
      unfold findRow at this
      exact Option.map_eq_none'.mp this
    unfold valueAtJsRow
    rw [hloop]
  have hsome : ∀ rows (k : List Char) m r, k ∉ protoKeys →
      findRow rows k = some r →
      valueAtJs rows k m =
        (match valGetJs r.values (toLowerJs (m.getD [])) with
          | JsProp.own v => Except.ok (JsNum.num v)
          | JsProp.inherited => Except.ok JsNum.nan
          | JsProp.undef => Except.ok (JsNum.num 0)) := by
    intro rows k m r hk hfind
    rw [valueAtJs_run rows k m hk]
    unfold findRow at hfind
    rcases Option.map_eq_some'.mp hfind with ⟨p, hloop, hp⟩
    unfold valueAtJsRow
    rw [hloop]
    subst hp
    rfl
  refine ⟨?_, hnone, ?_, ?_, ?_⟩
  · intro rows k m hk hm
    cases hfind : findRow rows k with
    | none =>
      rw [hnone rows k m hk hfind]
      simp [valueAt, hfind]
    | some r =>
      rw [hsome rows k m r hk hfind]
      cases hv : r.values.find? (fun p => p.1 == toLowerJs (m.getD [])) with
      | none => simp [valGetJs, valGet, hv, hm, valueAt, hfind]
      | some p => simp [valGetJs, valGet, hv, valueAt, hfind]
  · intro rows k m r hk hfind hm hv
    rw [hsome rows k m r hk hfind]
    have hfq : r.values.find? (fun p => p.1 == toLowerJs (m.getD [])) = none := by
      unfold valGet at hv
      exact Option.map_eq_none'.mp hv
    simp [valGetJs, hfq, hm]
  · intro rows k m r v hk hfind hv
    rw [hsome rows k m r hk hfind]
    unfold valGet at hv
    rcases Option.map_eq_some'.mp hv with ⟨p, hfq, hp⟩
    simp [valGetJs, hfq, hp]
  · intro rows k m habs hk
    apply hnone rows k m hk
    simp [findRow, aliasOpts, habs, findRowLoop]

/-- Witness for C9's amended theorem: the unmapped (non-inherited) key of
the spec's scenario yields 0, and on the concrete `receitaRows` state the
resolved January entry is returned while a missing month yields 0. -/
theorem c9_value_at_fallback_amended_witness :
    valueAtJs [] (str "receita_bruta_is_unmapped") (some (str "jan")) =
      Except.ok (JsNum.num 0) ∧
    valueAtJs receitaRows (str "receita_liquida") (some (str "jan")) =
      Except.ok (JsNum.num 1000) ∧
    valueAtJs receitaRows (str "receita_liquida") (some (str "fev")) =
      Except.ok (JsNum.num 0) :=
  ⟨c9_value_at_fallback_amended.2.2.2.2 [] (str "receita_bruta_is_unmapped")
      (some (str "jan")) (by decide) (by decide),
   c9_value_at_fallback_amended.2.2.2.1 receitaRows (str "receita_liquida")
      (some (str "jan")) receitaRow 1000 (by decide) (by decide) (by decide),
   c9_value_at_fallback_amended.2.2.1 receitaRows (str "receita_liquida")
      (some (str "fev")) receitaRow (by decide) (by decide) (by decide) (by decide)⟩

/-- Round-trip of a small code point through `Char.ofNat`. -/
theorem toNat_ofNat_small (n : Nat) (hn : n < 55296) : (Char.ofNat n).toNat = n := by
  simp [Char.ofNat, Char.toNat, Nat.isValidChar, hn, Char.ofNatAux]
  rfl

/-- Lowercasing is idempotent character-wise, hence string-wise. -/
theorem toLowerChar_idem (c : Char) : toLowerChar (toLowerChar c) = toLowerChar c := by
  unfold toLowerChar
  by_cases h : 65 ≤ c.toNat ∧ c.toNat ≤ 90
  · rw [if_pos h]
    have hto : (Char.ofNat (c.toNat + 32)).toNat = c.toNat + 32 :=
      toNat_ofNat_small (c.toNat + 32) (by omega)
    have hneg : ¬ (65 ≤ (Char.ofNat (c.toNat + 32)).toNat ∧
        (Char.ofNat (c.toNat + 32)).toNat ≤ 90) := by
      rw [hto]
      omega
    rw [if_neg hneg]
  · rw [if_neg h, if_neg h]

/-- String-level idempotence of the lowercasing used by `valueAt`. -/
theorem toLowerJs_idem (l : List Char) : toLowerJs (toLowerJs l) = toLowerJs l := by
  induction l with
  | nil => rfl
  | cons c cs ih =>
    simp only [toLowerJs, List.map_cons] at ih ⊢
    rw [toLowerChar_idem, ih]

/-- C10: `valueAt` is insensitive to the case of its month argument (it
lowercases before the lookup, so `valueAt k m = valueAt k (lowercase m)`),
and a `null`/`undefined` month reads like the empty string; but it applies
no whitespace trimming and no accent stripping to the month: on a state
holding a March (`"mar"`) entry, `"MAR"` and `"mar"` hit while `" mar"` and
`"már"` miss (even though the Text Normalizer would reduce `" MÁR "` to
`"mar"`). -/
theorem c10_value_at_month_normalization :
    (∀ rows k m, valueAt rows k (some m) = valueAt rows k (some (toLowerJs m)))
    ∧ (∀ rows k, valueAt rows k none = valueAt rows k (some []))
    ∧ valueAt ebitdaRows (str "ebitda") (some (str "MAR")) = 100
    ∧ valueAt ebitdaRows (str "ebitda") (some (str "mar")) = 100
    ∧ valueAt ebitdaRows (str "ebitda") (some (str " mar")) = 0
    ∧ valueAt ebitdaRows (str "ebitda") (some (str "már")) = 0
    ∧ normalize (str " MÁR ") = str "mar"
    ∧ valueAt ebitdaRows (str "ebitda") (some (str " MÁR ")) = 0 := by
  refine ⟨?_, ?_, by decide, by decide, by decide, by decide, by decide, by decide⟩
  · intro rows k m
    simp only [valueAt, Option.getD_some]
    rw [toLowerJs_idem]
  · intro rows k
    rfl

/-- The header-scan loop finds the first qualifying row: if row `i` is in
the scan window, has at least 3 month hits, and every row from `s` up to it
has fewer, the loop started at `s` stops at `i` with the title column
determined by whether `row[1]` is defined. -/
theorem findHeaderLoop_found :
    ∀ fuel s (data : Grid) i, s + fuel = 5 → s ≤ i → i < min 5 data.length →
      3 ≤ countHits (rowAt data i) →
      (∀ j, s ≤ j → j < i → countHits (rowAt data j) < 3) →
      findHeaderLoop data s fuel = some (i, if 2 ≤ (rowAt data i).length then 1 else 0) := by
  intro fuel
  induction fuel with
  | zero =>
    intro s data i h5 hsi hi _ _
    have := lt_min_iff.mp hi
    omega
  | succ fuel ih =>
    intro s data i h5 hsi hi hhits hbefore
    have hi5 := lt_min_iff.mp hi
    simp only [findHeaderLoop]
    rw [if_pos (show s < data.length by omega)]
    by_cases heq : s = i
    · subst heq
      rw [if_pos hhits]
    · have hlt : countHits (rowAt data s) < 3 := hbefore s le_rfl (by omega)
      rw [if_neg (by omega)]
      exact ih (s + 1) data i (by omega) (by omega) hi hhits
        (fun j hj1 hj2 => hbefore j (by omega) hj2)

/-- The header-scan loop falls through when no row of the window reaches 3
month hits. -/
theorem findHeaderLoop_none :
    ∀ fuel s (data : Grid), s + fuel = 5 →
      (∀ i, s ≤ i → i < min 5 data.length → countHits (rowAt data i) < 3) →
      findHeaderLoop data s fuel = none := by
  intro fuel
  induction fuel with
  | zero =>
    intro s data _ _
    rfl
  | succ fuel ih =>
    intro s data h5 hall
    simp only [findHeaderLoop]
    by_cases hs : s < data.length
    · rw [if_pos hs]
      have hlt : countHits (rowAt data s) < 3 :=
        hall s le_rfl (lt_min_iff.mpr ⟨by omega, hs⟩)
      rw [if_neg (by omega)]
      exact ih (s + 1) data (by omega) (fun i h1 h2 => hall i (by omega) h2)
    · rw [if_neg hs]

/-- C4: the Header/Column Locator scans at most the first 5 rows, selects
the first row with at least 3 month-classifier hits (title column 1 when
that row has a cell at index 1, else 0), defaults to `(1, 1)` when no row of
the window qualifies, and in particular selects row 0 whenever row 0 already
has 3 month hits. -/
theorem c4_header_locator :
    (∀ (data : Grid) i, i < min 5 data.length → 3 ≤ countHits (rowAt data i) →
      (∀ j, j < i → countHits (rowAt data j) < 3) →
      findHeader data = (i, if 2 ≤ (rowAt data i).length then 1 else 0))
    ∧ (∀ data : Grid, (∀ i, i < min 5 data.length → countHits (rowAt data i) < 3) →
      findHeader data = (1, 1))
    ∧ (∀ (row0 : List (List Char)) rest, 3 ≤ countHits row0 →
      (findHeader (row0 :: rest)).1 = 0) := by
  refine ⟨?_, ?_, ?_⟩
  · intro data i hi hhits hbefore
    unfold findHeader
    rw [findHeaderLoop_found 5 0 data i rfl (Nat.zero_le i) hi hhits
      (fun j _ hj => hbefore j hj)]
    rfl
  · intro data hall
    unfold findHeader
    rw [findHeaderLoop_none 5 0 data rfl (fun i _ h2 => hall i h2)]
    rfl
  · intro row0 rest hhits
    unfold findHeader
    rw [findHeaderLoop_found 5 0 (row0 :: rest) 0 rfl le_rfl
      (lt_min_iff.mpr ⟨by omega, by simp⟩) (by simpa using hhits)
      (fun j _ hj => absurd hj (Nat.not_lt_zero j))]
    rfl

/-- Witness for C4 on a concrete grid: a first row with four month cells is
selected with title column 1, and a grid of blank rows falls back to
`(1, 1)`. -/
theorem c4_header_locator_witness :
    findHeader [[str "x", str "Contas", str "Jan", str "Fev", str "Mar"]] = (0, 1) ∧
    findHeader [[str "a"], [str "b"]] = (1, 1) :=
  ⟨by
    have h := c4_header_locator.1 [[str "x", str "Contas", str "Jan", str "Fev", str "Mar"]]
      0 (by decide) (by decide) (fun j hj => absurd hj (Nat.not_lt_zero j))
    rw [h]
    decide,
   c4_header_locator.2.1 [[str "a"], [str "b"]] (by decide)⟩

/-- Lower bound, total-freeness and strict column growth of the walk, by
strong induction on the length of the remaining header suffix. -/
theorem walk_props (below : List (List Char)) :
    ∀ n (l : List (List Char)) idx, l.length ≤ n →
      (∀ mc ∈ walk below l idx, idx ≤ mc.col ∧ mc.mes ≠ str "total") ∧
      (walk below l idx).Pairwise (fun a b => a.col < b.col) := by
  intro n
  induction n with
  | zero =>
    intro l idx hl
    have : l = [] := List.length_eq_zero.mp (Nat.le_zero.mp hl)
    subst this
    exact ⟨fun mc h => by simp [walk] at h, by simp [walk]⟩
  | succ n ih =>
    intro l idx hl
    cases l with
    | nil => exact ⟨fun mc h => by simp [walk] at h, by simp [walk]⟩
    | cons cell rest =>
      have hrest : rest.length ≤ n := by
        simp only [List.length_cons] at hl
        omega
      cases hk : monthKey cell with
      | none =>
        have heq : walk below (cell :: rest) idx = walk below rest (idx + 1) := by
          cases rest <;> simp [walk, hk]
        have h1 := ih rest (idx + 1) hrest
        rw [heq]
        exact ⟨fun mc hmc => ⟨by have := (h1.1 mc hmc).1; omega, (h1.1 mc hmc).2⟩, h1.2⟩
      | some k =>
        by_cases htot : k = str "total"
        · have heq : walk below (cell :: rest) idx = walk below rest (idx + 1) := by
            cases rest <;> simp [walk, hk, htot]
          have h1 := ih rest (idx + 1) hrest
          rw [heq]
          exact ⟨fun mc hmc => ⟨by have := (h1.1 mc hmc).1; omega, (h1.1 mc hmc).2⟩, h1.2⟩
        · rw [walk_step below cell rest idx k hk htot]
          have htail :
              (∀ mc ∈ (if nextIsAux ((rest.head?).getD []) below idx then
                  walk below rest.tail (idx + 2) else walk below rest (idx + 1)),
                idx + 1 ≤ mc.col ∧ mc.mes ≠ str "total") ∧
              (if nextIsAux ((rest.head?).getD []) below idx then
                  walk below rest.tail (idx + 2) else walk below rest (idx + 1)).Pairwise
                (fun a b => a.col < b.col) := by
            by_cases haux : nextIsAux ((rest.head?).getD []) below idx = true
            · rw [if_pos haux]
              have htl : rest.tail.length ≤ n :=
                le_trans (by cases rest <;> simp) hrest
              have h2 := ih rest.tail (idx + 2) htl
              exact ⟨fun mc hmc => ⟨by have := (h2.1 mc hmc).1; omega, (h2.1 mc hmc).2⟩, h2.2⟩
            · rw [if_neg haux]
              exact ih rest (idx + 1) hrest
          constructor
          · intro mc hmc
            rcases List.mem_cons.mp hmc with hmc | hmc
            · subst hmc
              exact ⟨le_rfl, htot⟩
            · exact ⟨by have := (htail.1 mc hmc).1; omega, (htail.1 mc hmc).2⟩
          · rw [List.pairwise_cons]
            exact ⟨fun mc hmc => by have := (htail.1 mc hmc).1; simp; omega, htail.2⟩

/-- C8: for every input grid the Month-Column Mapper's output never contains
the reserved `"total"` key, and the column indices are strictly increasing
along the list. -/
theorem c8_month_columns_invariant :
    ∀ data : Grid,
      ((monthColsOf data).all fun mc => !(mc.mes == str "total")) = true ∧
      (monthColsOf data).Pairwise (fun a b => a.col < b.col) := by
  intro data
  simp only [monthColsOf]
  have h := walk_props (rowAt data ((findHeader data).1 + 1))
    ((rowAt data (findHeader data).1).drop (startCol (rowAt data (findHeader data).1))).length
    ((rowAt data (findHeader data).1).drop (startCol (rowAt data (findHeader data).1)))
    (startCol (rowAt data (findHeader data).1)) le_rfl
  constructor
  · rw [List.all_eq_true]
    intro mc hmc
    have := (h.1 mc hmc).2
    simpa using this
  · exact h.2

/-- A prefix of length at least 3 fixes the first three characters. -/
theorem prefix_take3 {b s : List Char} (hb : b.isPrefixOf s = true) (h3 : 3 ≤ b.length) :
    s.take 3 = b.take 3 := by
  rcases List.isPrefixOf_iff_prefix.mp hb with ⟨t, rfl⟩
  rw [List.take_append_eq_append_take, show 3 - b.length = 0 by omega]
  simp

/-- An alias entry rejects every string whose first three characters differ
from those of each of its bases. -/
theorem entry_reject (e : MonthAlias) (s : List Char)
    (h : ∀ b ∈ e.bases, 3 ≤ b.length ∧ b.take 3 ≠ s.take 3) :
    matchesEntry e s = false := by
  unfold matchesEntry
  rw [List.any_eq_false]
  intro b hb
  rcases h b hb with ⟨h3, hne⟩
  cases hp : b.isPrefixOf s with
  | false => simp
  | true => exact absurd (prefix_take3 hp h3).symm hne

/-- An alias entry accepts each of its bases extended with any valid year
suffix. -/
theorem entry_accept (e : MonthAlias) (b suf : List Char) (hb : b ∈ e.bases)
    (hs : validSuffix suf = true) : matchesEntry e (b ++ suf) = true := by
  unfold matchesEntry
  rw [List.any_eq_true]
  refine ⟨b, hb, ?_⟩
  have h1 : b.isPrefixOf (b ++ suf) = true := List.isPrefixOf_iff_prefix.mpr ⟨suf, rfl⟩
  have h2 : (b ++ suf).drop b.length = suf := List.drop_left b suf
  rw [h1, h2, hs]
  rfl

/-- Lemma: `firstMatch` returns the key of the first accepting entry. -/
theorem firstMatch_of : ∀ (pre : List MonthAlias) e post s,
    (∀ e' ∈ pre, matchesEntry e' s = false) → matchesEntry e s = true →
    firstMatch (pre ++ e :: post) s = some e.key := by
  intro pre
  induction pre with
  | nil =>
    intro e post s _ he
    simp [firstMatch, he]
  | cons e0 pre ih =>
    intro e post s hpre he
    have h0 : matchesEntry e0 s = false := hpre e0 (by simp)
    simp only [List.cons_append, firstMatch, h0, Bool.false_eq_true, if_false]
    exact ih e post s (fun e' h => hpre e' (List.mem_cons_of_mem _ h)) he

/-- Lemma: `firstMatch` returns no-match when every entry rejects. -/
theorem firstMatch_none : ∀ (L : List MonthAlias) s,
    (∀ e ∈ L, matchesEntry e s = false) → firstMatch L s = none := by
  intro L
  induction L with
  | nil =>
    intro s _
    rfl
  | cons e rest ih =>
    intro s h
    simp only [firstMatch, h e (by simp), Bool.false_eq_true, if_false]
    exact ih s (fun e' h' => h e' (by simp [h']))

/-- Every base of the month-alias table has at least 3 characters. -/
theorem table_base_len : ∀ e ∈ MONTH_ALIASES, ∀ b ∈ e.bases, 3 ≤ b.length := by decide

/-- Bases of distinct entries of the table differ in their first three
characters (so no base of one entry can be a prefix of a variant built from
another entry's base). -/
theorem table_take3_disjoint :
    MONTH_ALIASES.Pairwise
      (fun e1 e2 => ∀ b1 ∈ e1.bases, ∀ b2 ∈ e2.bases, b1.take 3 ≠ b2.take 3) := by decide

/-- A base of an entry, extended with any valid year suffix, is classified
to that entry's key: all earlier entries reject (their bases have different
3-prefixes), the owning entry accepts. -/
theorem monthKey_base_suffix (e : MonthAlias) (he : e ∈ MONTH_ALIASES) (b : List Char)
    (hb : b ∈ e.bases) (suf : List Char) (hs : validSuffix suf = true) :
    firstMatch MONTH_ALIASES (b ++ suf) = some e.key := by
  rcases List.append_of_mem he with ⟨pre, post, htab⟩
  have hb3 : 3 ≤ b.length := table_base_len e he b hb
  have htake : (b ++ suf).take 3 = b.take 3 := by
    rw [List.take_append_eq_append_take, show 3 - b.length = 0 by omega]
    simp
  have hpre : ∀ e' ∈ pre, matchesEntry e' (b ++ suf) = false := by
    intro e' he'
    apply entry_reject
    intro b' hb'
    have hmem : e' ∈ MONTH_ALIASES := htab ▸ List.mem_append_left _ he'
    have hlen : 3 ≤ b'.length := table_base_len e' hmem b' hb'
    have hdisj := table_take3_disjoint
    rw [htab] at hdisj
    rcases List.pairwise_append.mp hdisj with ⟨_, _, hcross⟩
    have hne := hcross e' he' e (List.mem_cons_self e post) b' hb' b hb
    exact ⟨hlen, by rw [htake]; exact hne⟩
  rw [htab]
  exact firstMatch_of pre e post (b ++ suf) hpre (entry_accept e b suf hb hs)

/-- C5: every cell that normalizes to an alias base (any case or diacritic
variant) followed by an optional separator-and-year suffix is classified to
that base's canonical key — the same key as the unaccented lowercase base
form itself; the literal `"total"` classifies to the reserved `"total"` key;
a cell matched by no table pattern yields no-match.  (Evaluation order is
the fixed table order; `firstMatch` stops at the first accepting entry.) -/
theorem c5_month_classifier :
    (∀ cell e b suf, e ∈ MONTH_ALIASES → b ∈ e.bases → validSuffix suf = true →
      normalize cell = b ++ suf → monthKey cell = some e.key)
    ∧ (∀ e ∈ MONTH_ALIASES, ∀ b ∈ e.bases, monthKey b = some e.key)
    ∧ monthKey (str "total") = some (str "total")
    ∧ (∀ cell, (∀ e ∈ MONTH_ALIASES, matchesEntry e (normalize cell) = false) →
      monthKey cell = none)
    ∧ (∀ cell pre e post, MONTH_ALIASES = pre ++ e :: post →
      (∀ e' ∈ pre, matchesEntry e' (normalize cell) = false) →
      matchesEntry e (normalize cell) = true → monthKey cell = some e.key) := by
  refine ⟨?_, by decide, by decide, ?_, ?_⟩
  · intro cell e b suf he hb hs hnorm
    unfold monthKey
    rw [hnorm]
    exact monthKey_base_suffix e he b hb suf hs
  · intro cell h
    unfold monthKey
    exact firstMatch_none MONTH_ALIASES (normalize cell) h
  · intro cell pre e post htab hpre he
    unfold monthKey
    rw [htab]
    exact firstMatch_of pre e post (normalize cell) hpre he

/-- Witness for C5: the suffixed variant `"Jan/25"` and the accented
uppercase variant `"MARÇO"` classify to their canonical keys. -/
theorem c5_month_classifier_witness :
    monthKey (str "Jan/25") = some (str "jan") ∧
    monthKey (str "MARÇO") = some (str "mar") :=
  ⟨c5_month_classifier.1 (str "Jan/25") ⟨[str "jan", str "janeiro"], str "jan"⟩
      (str "jan") (str "/25") (by decide) (by decide) (by decide) (by decide),
   c5_month_classifier.1 (str "MARÇO") ⟨[str "mar", str "marco", str "março"], str "mar"⟩
      (str "marco") [] (by decide) (by decide) (by decide) (by decide)⟩

end DRE
